import Mathlib

/-!
Verification of the saph compiler front end core.

A shallow embedding of the HIR-lowering, primitive-registry and THIR
bidirectional elaboration core of the `saph` repository
(`sol-hir`, `sol-hir-lowering`, `sol-thir`, `sol-thir-lowering`), together
with theorems settling the frozen claims about it.

Rust `Result`/panics are modelled by an explicit result type `Res`;
recursion that is not structural in the Rust source (the mutually recursive
`thir_check`/`thir_infer` family, NbE evaluation) is made total with an
explicit fuel parameter, decremented at every recursive call.  Partially
applied runs return `Res.fuelOut`; no theorem below identifies `fuelOut`
with any source behaviour.

Definitions are translated from the Rust sources; components of the
repository that are not among the provided sources (the `sol-thir`
context/evaluator internals, the scope resolver, `new_curried_function`,
`elaboration::insert`/`unify_catch`) are modelled from the specification
and are marked `Modelled from the spec:` in their doc comments.
-/

namespace Saph

/-- Models `sol_thir::shared::Implicitness` — explicit/implicit marker on binders. -/
inductive Implicitness where
  | explicitM
  | implicitM
  deriving DecidableEq, Repr

/-- Models `sol_hir::source::Location` — a source location; `callSite` models
`Location::CallSite`, `span n` stands for a concrete byte-range location
(byte ranges are abstracted to an identifying number). -/
inductive Location where
  | callSite
  | span (n : Nat)
  deriving DecidableEq, Repr

/-- Models `sol_hir::source::HirPath` — a dotted sequence of identifier segments
with a source location. -/
structure HirPath where
  location : Location
  segments : List String
  deriving DecidableEq, Repr

/-- Modelled from the spec: `HirPath::to_string(db)` returns `Option<String>`
(the implementation is not among the provided sources); we model it as the
dot-joined segments, `none` for an empty path. -/
def HirPath.toStr (p : HirPath) : Option String :=
  match p.segments with
  | [] => none
  | ss => some (String.intercalate "." ss)

/-- Models `sol_hir::solver::DefinitionKind` — the namespace a path resolves in. -/
inductive DefinitionKind where
  | function
  | type
  | constructor
  | trait
  | unresolved
  deriving DecidableEq, Repr

/-- Models `sol_hir::solver::Definition` — a globally unique handle for a named
entity (`DefinitionId` + kind + originating path); compared by identity,
which we model by the numeric `id` together with its creation data. -/
structure Definition where
  id : Nat
  kind : DefinitionKind
  path : HirPath
  deriving DecidableEq, Repr

/-- Models `sol_hir::solver::Reference` — a use-site occurrence of a `Definition`
with its source location. -/
structure Reference where
  definition : Definition
  location : Location
  deriving DecidableEq, Repr

/-- Models `sol_hir::source::Spanned<T>` — a value together with its source span. -/
structure Spanned (α : Type) where
  value : α
  location : Location
  deriving DecidableEq, Repr

/-- Models `Spanned::on_call_site` — wraps a value with `Location::CallSite`. -/
def Spanned.onCallSite {α : Type} (a : α) : Spanned α :=
  ⟨a, Location.callSite⟩

/-- Models `sol_hir::source::literal::Literal` (the literal source is not provided;
variants modelled from its uses: booleans for the if-desugaring constants
`Literal::TRUE`/`Literal::FALSE`, integers and strings for primaries). -/
inductive Literal where
  | boolean (b : Bool)
  | int (n : Int)
  | string (s : String)
  | empty
  deriving DecidableEq, Repr

/-- Models `Literal::TRUE`. -/
def Literal.TRUE : Literal := .boolean true

/-- Models `Literal::FALSE`. -/
def Literal.FALSE : Literal := .boolean false

/-- Models `sol_hir::source::expr::Type` — the built-in type keywords
(`Universe`, `This`, `Unit`, `String`, `Bool`, `Nat` and the sized
integer family). -/
inductive TypeKw where
  | universe
  | this
  | unit
  | string
  | bool
  | nat
  | int8
  | uint8
  | int16
  | uint16
  | int32
  | uint32
  | int64
  | uint64
  deriving DecidableEq, Repr

/-- Models `sol_thir::shared::MetaVar` — an unsolved metavariable cell; created by
`MetaVar::new(name)`.  Solving is not exercised by the claims, so only the
creation payload is modelled. -/
structure MetaVar where
  name : Option Definition
  deriving DecidableEq, Repr

/-- Models `MetaVar::new`. -/
def MetaVar.new (name : Option Definition) : MetaVar := ⟨name⟩

/-- Models `sol_thir::shared::ConstructorKind` — the head of a constructor term:
a resolved reference, one of the primitive type heads
(cf. `create_from_type` in `sol-thir-lowering/src/infer.rs`), or a literal
value (`impl From<Literal> for ConstructorKind`). -/
inductive ConstructorKind where
  | reference (r : Reference)
  | unitType
  | stringType
  | booleanType
  | natType
  | intType (signed : Bool) (bits : Nat)
  | lit (l : Literal)
  deriving DecidableEq, Repr

/-- Models `sol_thir::shared::Constructor` — a constructor head with its location. -/
structure Constructor where
  location : Location
  kind : ConstructorKind
  deriving DecidableEq, Repr

/-- Models `sol_thir::Term` — the core checked representation produced by
elaboration: universe `U`, constructors, `Lam`, `Pi`, `InsertedMeta`,
plus the De Bruijn variable and application forms required by
evaluation/quoting (the `Term` source is not among the provided files;
the constructor list follows its uses in `check.rs`/`infer.rs` and the
spec's data model section). -/
inductive Term where
  | u
  | constructor (c : Constructor)
  | lam (name : Definition) (implicitness : Implicitness) (body : Term)
  | pi (name : Option Definition) (implicitness : Implicitness)
       (domain : Term) (codomain : Term)
  | insertedMeta (m : MetaVar)
  | var (ix : Nat)
  | app (fn : Term) (arg : Term)
  deriving DecidableEq, Repr

mutual

/-- Models `sol_thir::value::Value` — the semantic NbE domain: universe,
constructors, stuck metavariable (`Flexible`) and variable (`Rigid`)
spines, `Pi`, `Lam` and location-wrapped values. -/
inductive Value where
  | u
  | constructor (c : Constructor)
  | flexible (m : MetaVar) (spine : List Value)
  | rigid (lvl : Nat) (spine : List Value)
  | pi (p : VPi)
  | lam (name : Definition) (implicitness : Implicitness) (c : Closure)
  | location (loc : Location) (v : Value)

/-- Models `sol_thir::value::Pi` as used by `sol-thir-lowering` — a dependent
function value: optional binder name, implicitness, evaluated domain and a
codomain closure (`pi.name`/`pi.domain`/`pi.codomain` in `check.rs`,
constructed in `infer.rs`). -/
inductive VPi where
  | mk (name : Option Definition) (implicitness : Implicitness)
       (domain : Value) (codomain : Closure)

/-- Models `sol_thir::value::Closure` — a captured environment together with an
unevaluated term body. -/
inductive Closure where
  | mk (env : List Value) (expr : Term)

end

/-- Field accessor for `VPi.name`. -/
def VPi.name : VPi → Option Definition
  | .mk n _ _ _ => n

/-- Field accessor for `VPi.implicitness`. -/
def VPi.implicitness : VPi → Implicitness
  | .mk _ i _ _ => i

/-- Field accessor for `VPi.domain`. -/
def VPi.domain : VPi → Value
  | .mk _ _ d _ => d

/-- Field accessor for `VPi.codomain`. -/
def VPi.codomain : VPi → Closure
  | .mk _ _ _ c => c

/-- Field accessor for `Closure.env`. -/
def Closure.env : Closure → List Value
  | .mk e _ => e

/-- Field accessor for `Closure.expr`. -/
def Closure.expr : Closure → Term
  | .mk _ e => e

/-- Models `Value::new_var(lvl, reference)` — a fresh rigid variable with an empty
spine. -/
def Value.new_var (lvl : Nat) (_reference : Option Reference) : Value :=
  Value.rigid lvl []

/-- Models `sol_thir::shared::Env::push` — the environment is extended "as a snoc
list … to be the first to be applied" (comment on `Closure::apply`), i.e.
the pushed value is looked up by De Bruijn index `0`. -/
def envPush (env : List Value) (v : Value) : List Value :=
  v :: env

/-- The elaboration diagnostics that `sol_diagnostic::Result` can carry in
the modelled fragment: the `UnsupportedTermError` of
`sol-thir-lowering/src/infer.rs`, plus an opaque payload for failures
produced by external database queries. -/
inductive Diagnostic where
  | unsupportedTerm (location : Location)
  | external (code : Nat) (location : Location)
  deriving DecidableEq, Repr

/-- The result of running a fallible/partial Rust computation:
`ok` models `Ok`, `err` models `Err` of `sol_diagnostic::Result`,
`panicked` models a Rust panic (`todo!`, `Option::unwrap` on `None`), and
`fuelOut` marks fuel exhaustion of the embedding (never a source
behaviour). -/
inductive Res (α : Type) where
  | ok (a : α)
  | err (e : Diagnostic)
  | panicked (msg : String)
  | fuelOut
  deriving DecidableEq, Repr

/-- Sequencing of fallible computations (`?` in the Rust source). -/
def Res.bind {α β : Type} : Res α → (α → Res β) → Res β
  | .ok a, f => f a
  | .err e, _ => .err e
  | .panicked m, _ => .panicked m
  | .fuelOut, _ => .fuelOut

instance : Monad Res where
  pure := Res.ok
  bind := Res.bind

/-- The panic message of `Option::unwrap` on `None` (`pi.name.unwrap()`
in `implicit_fun_eta`). -/
def unwrapNoneMsg : String := "called `Option::unwrap()` on a `None` value"

/-- Models `sol_hir::solver::HirLevel` — the lowering-time tag deciding whether a
name qualifies against function-space or type-space definitions. -/
inductive HirLevel where
  | expr
  | type
  deriving DecidableEq, Repr

/-- Models `MatchKind` of `sol_hir::source::expr::MatchExpr` — `Match` for a
surface `match`, `If` for a desugared `if` (Lean variant names carry a `Kw`
suffix since `match`/`if` are keywords). -/
inductive MatchKind where
  | matchKw
  | ifKw
  deriving DecidableEq, Repr

/-- Models `CallKind` of `sol_hir::source::expr::CallExpr` — `Prefix`/`Infix`
(Lean variant names carry a `C` suffix). -/
inductive CallKind where
  | prefixC
  | infixC
  deriving DecidableEq, Repr

/-- Models `sol_hir::source::stmt::Block` — a do-notation block.  Modelled from
the spec: statement lowering is not among the provided sources and no claim
inspects a block's contents, so a block is an opaque labelled node. -/
structure Block where
  label : Nat
  deriving DecidableEq, Repr

/-- Models `sol_hir::source::pattern::Pattern` — literal, wildcard, rest,
constructor and binding patterns (`binding.name` is the bound
`Definition`, as used by `thir_infer`'s `Pi` case). -/
inductive HPattern where
  | empty
  | literalP (l : Spanned Literal)
  | wildcard (location : Location)
  | rest (location : Location)
  | binding (name : Definition) (location : Location)
  | constructorP (r : Reference) (args : List HPattern) (location : Location)

mutual

/-- Models `sol_hir::source::expr::Expr` — the HIR expression tree.  The `Lam`
variant drops the captured scope snapshot (`LamExpr::scope`), which no
modelled operation reads; all other payloads follow the source field
lists. -/
inductive HExpr where
  | empty
  | error (loc : Location)
  | matchE (kind : MatchKind) (scrutinee : HExpr) (clauses : List MatchArm)
           (location : Location)
  | sigma (parameters : List HParameter) (value : TypeRep) (location : Location)
  | piE (parameters : List HParameter) (value : TypeRep) (location : Location)
  | path (r : Reference)
  | literal (l : Spanned Literal)
  | typeE (t : TypeKw) (location : Location)
  | ann (value : HExpr) (type_rep : TypeRep) (location : Location)
  | call (kind : CallKind) (callee : Callee) (arguments : List HExpr)
         (doBlock : Option Block) (location : Location)
  | lam (parameters : List HPattern) (value : HExpr) (location : Location)
  | hole (loc : Location)

/-- Models `sol_hir::source::type_rep::TypeRep` — a type-level expression, kept as
a wrapped `Expr` (`TypeRep { expr: Box<Expr> }`). -/
inductive TypeRep where
  | mk (expr : HExpr)

/-- Models `sol_hir::source::expr::MatchArm` — a pattern, an arm body and its
location. -/
inductive MatchArm where
  | mk (pattern : HPattern) (value : HExpr) (location : Location)

/-- Models `Callee` of `sol_hir::source::expr::CallExpr` — array/tuple/pure/unit
built-ins, a resolved reference, or an arbitrary callee expression. -/
inductive Callee where
  | array
  | tuple
  | pure
  | unit
  | reference (r : Reference)
  | exprC (e : HExpr)

/-- Models `sol_hir::source::declaration::Parameter` — a binding pattern, its
declared type, the implicit marker, rigidity, level and location
(`Parameter::new`'s field order). -/
inductive HParameter where
  | mk (binding : HPattern) (parameter_type : TypeRep) (is_implicit : Bool)
       (rigid : Bool) (level : HirLevel) (location : Location)

end

/-- Field accessor for `TypeRep.expr`. -/
def TypeRep.expr : TypeRep → HExpr
  | .mk e => e

/-- Accessor `Parameter::binding(db)`. -/
def HParameter.binding : HParameter → HPattern
  | .mk b _ _ _ _ _ => b

/-- Accessor `Parameter::parameter_type(db)`. -/
def HParameter.parameter_type : HParameter → TypeRep
  | .mk _ t _ _ _ _ => t

/-- Accessor `Parameter::is_implicit(db)`. -/
def HParameter.isImplicitP : HParameter → Bool
  | .mk _ _ i _ _ _ => i

/-- Accessor for `MatchArm.pattern`. -/
def MatchArm.pattern : MatchArm → HPattern
  | .mk p _ _ => p

/-- Accessor for `MatchArm.value`. -/
def MatchArm.value : MatchArm → HExpr
  | .mk _ v _ => v

/-- Accessor for `MatchArm.location`. -/
def MatchArm.location : MatchArm → Location
  | .mk _ _ l => l

/-- Models `HirElement::location` for HIR expressions (the accessor's source is
not provided; each node stores the location recorded at lowering time, and
the payload-free `Empty` node reports `Location::CallSite`). -/
def HExpr.location : HExpr → Location
  | .empty => .callSite
  | .error loc => loc
  | .matchE _ _ _ loc => loc
  | .sigma _ _ loc => loc
  | .piE _ _ loc => loc
  | .path r => r.location
  | .literal l => l.location
  | .typeE _ loc => loc
  | .ann _ _ loc => loc
  | .call _ _ _ _ loc => loc
  | .lam _ _ loc => loc
  | .hole loc => loc

/-- Modelled from the spec: the elaboration `Context` (its source in
`sol-thir` is not provided) — an immutable, append-only sequence of bound
`(Definition, Value)` pairs, the environment of local values read by
`ctx.locals(db)`, and the De Bruijn level counter read by `ctx.lvl(db)`. -/
structure Context where
  lvl : Nat
  locals : List Value
  binders : List (Definition × Value)

/-- Modelled from the spec: `Context::create_new_value` — returns a *new*
context binding `definition` to the type `value`, with a fresh rigid
variable at the old level pushed on the local environment. -/
def Context.create_new_value (ctx : Context) (definition : Definition)
    (value : Value) : Context :=
  { lvl := ctx.lvl + 1
    locals := envPush ctx.locals (Value.rigid ctx.lvl [])
    binders := (definition, value) :: ctx.binders }

/-- Modelled from the spec: `Context::insert_new_binder` — inserts a binder
exactly as `create_new_value` does (the spec's data model describes both as
appending one bound pair and returning a new context). -/
def Context.insert_new_binder (ctx : Context) (definition : Definition)
    (value : Value) : Context :=
  ctx.create_new_value definition value

mutual

/-- Modelled from the spec: the `thir_eval` query (NbE evaluation; its
source in `sol-thir` is not provided) — maps a term and an environment to
a value, substituting variables from the environment, forming closures at
every `Lam`/`Pi` without entering the body, and leaving metavariables as
stuck `Flexible` spines.  Fuel is decremented at every recursive call. -/
def thir_eval : Nat → List Value → Term → Res Value
  | 0, _, _ => .fuelOut
  | fuel + 1, env, t =>
    match t with
    | .u => .ok .u
    | .constructor c => .ok (.constructor c)
    | .var ix =>
      match env.get? ix with
      | some v => .ok v
      | none => .panicked "unbound variable"
    | .lam n i body => .ok (.lam n i (.mk env body))
    | .pi n i dom cod => do
      let d ← thir_eval fuel env dom
      pure (.pi (.mk n i d (.mk env cod)))
    | .insertedMeta m => .ok (.flexible m [])
    | .app f a => do
      let vf ← thir_eval fuel env f
      let va ← thir_eval fuel env a
      valueApply fuel vf va

/-- Modelled from the spec: application of an evaluated head to an argument
value — a `Lam` closure is entered, stuck `Flexible`/`Rigid` heads extend
their spines, anything else is a panic. -/
def valueApply : Nat → Value → Value → Res Value
  | 0, _, _ => .fuelOut
  | fuel + 1, vf, va =>
    match vf with
    | .lam _ _ c => thir_eval fuel (envPush c.env va) c.expr
    | .flexible m spine => .ok (.flexible m (spine ++ [va]))
    | .rigid l spine => .ok (.rigid l (spine ++ [va]))
    | .location _ v => valueApply fuel v va
    | _ => .panicked "cannot apply a non-function value"

end

/-- Models `Closure::apply` (in `sol-thir/src/value.rs`) — pushes the argument on
the captured environment and evaluates the stored term
(`db.thir_eval(closure_env, self.expr)`). -/
def Closure.apply (fuel : Nat) (c : Closure) (value : Value) : Res Value :=
  thir_eval fuel (envPush c.env value) c.expr

mutual

/-- Modelled from the spec: the `thir_quote` query (its source in
`sol-thir` is not provided) — turns a value back into a term relative to a
De Bruijn level, applying closures to fresh rigid variables to read under
binders and rebuilding stuck spines as applications. -/
def thir_quote : Nat → Nat → Value → Res Term
  | 0, _, _ => .fuelOut
  | fuel + 1, lvl, v =>
    match v with
    | .u => .ok .u
    | .constructor c => .ok (.constructor c)
    | .flexible m spine => quoteSpine fuel lvl (Term.insertedMeta m) spine
    | .rigid l spine => quoteSpine fuel lvl (Term.var (lvl - l - 1)) spine
    | .pi (.mk n i dom cod) => do
      let d ← thir_quote fuel lvl dom
      let cv ← thir_eval fuel (envPush cod.env (Value.rigid lvl [])) cod.expr
      let c ← thir_quote fuel (lvl + 1) cv
      pure (Term.pi n i d c)
    | .lam n i c => do
      let bv ← thir_eval fuel (envPush c.env (Value.rigid lvl [])) c.expr
      let b ← thir_quote fuel (lvl + 1) bv
      pure (Term.lam n i b)
    | .location _ v => thir_quote fuel lvl v

/-- Modelled from the spec: quoting a stuck spine — each argument is quoted
and applied to the accumulated head term. -/
def quoteSpine : Nat → Nat → Term → List Value → Res Term
  | 0, _, _, _ => .fuelOut
  | _ + 1, _, head, [] => .ok head
  | fuel + 1, lvl, head, arg :: rest => do
    let a ← thir_quote fuel lvl arg
    quoteSpine fuel lvl (Term.app head a) rest

end

/-- Models `Curried` — the non-owning re-shaping of a nested lambda into a chain
`Curried::Lam(param, rest) | Curried::Expr(body)` driving multi-argument
elaboration. -/
inductive Curried where
  | lamC (definition : Definition) (value : Curried)
  | exprC (e : HExpr)

/-- Modelled from the spec: the binder `Definition` extracted from a lambda
parameter pattern when `new_curried_function` re-shapes a lambda (only
binding patterns carry a definition; any other pattern yields an
unresolved placeholder). -/
def patternDefinition : HPattern → Definition
  | .binding n _ => n
  | _ => ⟨0, .unresolved, ⟨.callSite, []⟩⟩

/-- Modelled from the spec: `new_curried_function(db, abs)` — re-curries a
`LamExpr` into a parameter chain ending in its body. -/
def new_curried_function (parameters : List HPattern) (value : HExpr) : Curried :=
  parameters.foldr (fun p acc => Curried.lamC (patternDefinition p) acc)
    (Curried.exprC value)

/-- Modelled from the spec: the external database queries consumed by the
elaborator whose sources are not provided — `find_reference_type` (the
global reference-type query used for `Path`) and `infer_constructor` (the
constructor-inference query used for `Literal`). -/
structure ExternalDb where
  find_reference_type : Context → Reference → Res (Reference × Value)
  infer_constructor : Context → Constructor → Res Value

/-- Modelled from the spec: `Value::default()` — the fresh placeholder
domain type synthesized for each lambda parameter during inference, an
unsolved metavariable with an empty spine. -/
def Value.default : Value := Value.flexible (MetaVar.new none) []

/-- Modelled from the spec: `elaboration::unify_catch` — unifies the
expected type against the inferred one, reporting a type-mismatch
diagnostic to the sink on failure and continuing; its unit result is
discarded by `term_equality`. -/
def unify_catch (_ctx : Context) (_expected _inferred : Value) : Unit := ()

/-- Modelled from the spec: `elaboration::insert` — eta-expands any leading
implicit Pis in the inferred type: while the type is an implicit `Pi`, the
term is applied to a fresh metavariable and the codomain closure is entered
with that metavariable. -/
def elaborationInsert : Nat → Context → Term → Value → Res (Term × Value)
  | 0, _, _, _ => .fuelOut
  | fuel + 1, ctx, term, ty =>
    match ty with
    | .pi (.mk _ .implicitM _ cod) => do
      let m := MetaVar.new none
      let ty2 ← thir_eval fuel (envPush cod.env (Value.flexible m [])) cod.expr
      elaborationInsert fuel ctx (Term.app term (Term.insertedMeta m)) ty2
    | _ => .ok (term, ty)

/-- Models `type_hole` (in `sol-thir-lowering/src/check.rs`) — a hole checks to a
fresh unresolved metavariable term. -/
def type_hole : Res Term :=
  .ok (Term.insertedMeta (MetaVar.new none))

/-- Models `expected_lam_pi` (in `sol-thir-lowering/src/check.rs`) — the
lambda-against-non-Pi branch; its body is `todo!("handle: error")`, a
process abort. -/
def expected_lam_pi (_db : ExternalDb) (_ctx : Context) (_expr : Curried)
    (_type_repr : Value) : Res Term :=
  .panicked "handle: error"

/-- Models `create_from_type` (in `sol-thir-lowering/src/infer.rs`) — maps a
built-in type keyword to its constructor term; `Universe` returns the
literal universe term and `This` is `todo!("handle: error")`. -/
def create_from_type (definition : TypeKw) (location : Location) : Res Term :=
  match definition with
  | .universe => .ok Term.u
  | .this => .panicked "handle: error"
  | .unit => .ok (.constructor ⟨location, .unitType⟩)
  | .string => .ok (.constructor ⟨location, .stringType⟩)
  | .bool => .ok (.constructor ⟨location, .booleanType⟩)
  | .nat => .ok (.constructor ⟨location, .natType⟩)
  | .int8 => .ok (.constructor ⟨location, .intType true 8⟩)
  | .uint8 => .ok (.constructor ⟨location, .intType false 8⟩)
  | .int16 => .ok (.constructor ⟨location, .intType true 16⟩)
  | .uint16 => .ok (.constructor ⟨location, .intType false 16⟩)
  | .int32 => .ok (.constructor ⟨location, .intType true 32⟩)
  | .uint32 => .ok (.constructor ⟨location, .intType false 32⟩)
  | .int64 => .ok (.constructor ⟨location, .intType true 64⟩)
  | .uint64 => .ok (.constructor ⟨location, .intType false 64⟩)

/-- The binder name recorded for a Pi parameter by `thir_infer`
(`Some(binding.name)` for a binding pattern, `None` otherwise). -/
def paramName (p : HParameter) : Option Definition :=
  match p.binding with
  | .binding n _ => some n
  | _ => none

/-- The implicitness recorded for a Pi parameter by `thir_infer`
(from `parameter.is_implicit(db)`). -/
def paramIcit (p : HParameter) : Implicitness :=
  if p.isImplicitP then .implicitM else .explicitM

/-- The `for parameter in parameters` loop of `thir_infer`'s `Pi` case:
each parameter's declared type is checked against the universe (through the
supplied checking function) and the accumulated codomain is wrapped in a
`Pi` term carrying that parameter's name and implicitness. -/
def inferPiFold (check : HExpr → Res Term) :
    List HParameter → Term → Res Term
  | [], codomain => .ok codomain
  | parameter :: rest, codomain => do
    let domain ← check parameter.parameter_type.expr
    inferPiFold check rest
      (Term.pi (paramName parameter) (paramIcit parameter) domain codomain)

mutual

/-- Models `lam_pi` (in `sol-thir-lowering/src/check.rs`) — CASE lam-pi /
lam-pi-implicit: binds the parameter to the Pi's domain, applies the
codomain closure to a fresh rigid variable at the *old* level, checks the
lambda body against it and wraps the result in a `Lam` tagged with the
Pi's implicitness; a `Curried::Expr` here is `panic!("handle: no
parameters")`. -/
def lam_pi (db : ExternalDb) : Nat → Context → Curried → VPi → Implicitness →
    Res Term
  | 0, _, _, _, _ => .fuelOut
  | fuel + 1, ctx, lam, pi, icit =>
    match lam with
    | .exprC _ => .panicked "handle: no parameters"
    | .lamC definition value => do
      let inner_ctx := ctx.create_new_value definition pi.domain
      let term_type ← Closure.apply fuel pi.codomain (Value.new_var ctx.lvl none)
      let elab_term ← lam_thir_check db fuel inner_ctx value term_type icit
      pure (Term.lam definition pi.implicitness elab_term)

/-- Models `lam_thir_check` (in `sol-thir-lowering/src/check.rs`) — dispatches a
curried lambda chain against a type: chain-vs-Pi recurses through
`lam_pi`, body-vs-implicit-Pi eta-expands, chain-vs-non-Pi hits the
unimplemented `expected_lam_pi`, and a plain body checks normally. -/
def lam_thir_check (db : ExternalDb) : Nat → Context → Curried → Value →
    Implicitness → Res Term
  | 0, _, _, _, _ => .fuelOut
  | fuel + 1, ctx, expr, type_repr, icit =>
    match expr, type_repr with
    | .lamC _ _, .pi pi => lam_pi db fuel ctx expr pi icit
    | .exprC e, .pi (.mk n .implicitM d c) =>
      implicit_fun_eta db fuel ctx e (.mk n .implicitM d c)
    | .lamC _ _, t => expected_lam_pi db ctx expr t
    | .exprC e, t => thir_check db fuel ctx e t

/-- Models `implicit_fun_eta` (in `sol-thir-lowering/src/check.rs`) — CASE
implicit-fun-n: transforms a value checked against an implicit Pi into an
implicit lambda, checking the value against the applied codomain under an
inserted binder; `pi.name.unwrap()` panics when the Pi carries no binder
name. -/
def implicit_fun_eta (db : ExternalDb) : Nat → Context → HExpr → VPi →
    Res Term
  | 0, _, _, _ => .fuelOut
  | fuel + 1, ctx, value, pi =>
    match pi.name with
    | none => .panicked unwrapNoneMsg
    | some n => do
      let inner_ctx := ctx.insert_new_binder n pi.domain
      let term_type ← Closure.apply fuel pi.codomain (Value.new_var ctx.lvl none)
      let elab_term ← thir_check db fuel inner_ctx value term_type
      pure (Term.lam n Implicitness.implicitM elab_term)

/-- Models `term_equality` (in `sol-thir-lowering/src/check.rs`) — CASE
term_equality: infers the expression's type, inserts leading implicit Pis,
unifies (discarding `unify_catch`'s unit result) and returns the inferred
term. -/
def term_equality (db : ExternalDb) : Nat → Context → HExpr → Value →
    Res Term
  | 0, _, _, _ => .fuelOut
  | fuel + 1, ctx, e, expected => do
    let (term, type_repr) ← thir_infer db fuel ctx e
    let (term2, inferred_type) ← elaborationInsert fuel ctx term type_repr
    let _ := unify_catch ctx expected inferred_type
    pure term2

/-- Models `thir_check` (in `sol-thir-lowering/src/check.rs`) — the bidirectional
checking judgment: lambda-vs-Pi, value-vs-implicit-Pi (eta-expansion),
hole, and the infer-then-unify fallback, in the source's arm order. -/
def thir_check (db : ExternalDb) : Nat → Context → HExpr → Value → Res Term
  | 0, _, _, _ => .fuelOut
  | fuel + 1, ctx, e, type_repr =>
    match e, type_repr with
    | .lam parameters value _location, .pi pi =>
      lam_pi db fuel ctx (new_curried_function parameters value) pi
        pi.implicitness
    | v, .pi (.mk n .implicitM d c) =>
      implicit_fun_eta db fuel ctx v (.mk n .implicitM d c)
    | .hole _, _ => type_hole
    | v, expected => term_equality db fuel ctx v expected

/-- Models `infer_lam` (in `sol-thir-lowering/src/infer.rs`) — infers a curried
lambda: a fresh placeholder domain per parameter, recursing into the body,
building the Pi type with the codomain quoted at the *outer* level over
the *outer* local environment. -/
def infer_lam (db : ExternalDb) : Nat → Context → Curried → Res (Term × Value)
  | 0, _, _ => .fuelOut
  | fuel + 1, ctx, fn =>
    match fn with
    | .lamC domain codomain => do
      let domain_type := Value.default
      let codomain_ctx := ctx.create_new_value domain domain_type
      let (codomain_term, codomain_type) ← infer_lam db fuel codomain_ctx codomain
      let term := Term.lam domain Implicitness.explicitM codomain_term
      let q ← thir_quote fuel ctx.lvl codomain_type
      pure (term,
        Value.pi (.mk (some domain) Implicitness.explicitM domain_type
          (.mk ctx.locals q)))
    | .exprC e => thir_infer db fuel ctx e

/-- Models `thir_infer` (in `sol-thir-lowering/src/infer.rs`) — the bidirectional
inference judgment, in the source's arm order: the structurally
unsupported nodes fail with `UnsupportedTerm`, paths and literals query
the database, type keywords map through `create_from_type`, annotations
check-then-evaluate, `Call` is `todo!()`, lambdas re-curry, `Pi` checks
the body and folds the parameters, and a hole produces a fresh
metavariable with a flexible type. -/
def thir_infer (db : ExternalDb) : Nat → Context → HExpr → Res (Term × Value)
  | 0, _, _ => .fuelOut
  | fuel + 1, ctx, e =>
    match e with
    | .empty => .err (.unsupportedTerm Location.callSite)
    | .error loc => .err (.unsupportedTerm loc)
    | .matchE _ _ _ loc => .err (.unsupportedTerm loc)
    | .sigma _ _ loc => .err (.unsupportedTerm loc)
    | .path r => do
      let constructor : Constructor := ⟨r.location, .reference r⟩
      let (_, inferred_type) ← db.find_reference_type ctx r
      pure (Term.constructor constructor, inferred_type)
    | .literal l => do
      let constructor : Constructor := ⟨l.location, .lit l.value⟩
      let inferred_type ← db.infer_constructor ctx constructor
      pure (Term.constructor constructor, inferred_type)
    | .typeE definition location => do
      let t ← create_from_type definition location
      match t with
      | .u => pure (Term.u, Value.u)
      | term => pure (term, Value.u)
    | .ann value type_rep _loc => do
      let actual_type ← thir_check db fuel ctx type_rep.expr Value.u
      let actual_value ← thir_eval fuel ctx.locals actual_type
      let term ← thir_check db fuel ctx value actual_value
      pure (term, actual_value)
    | .call _ _ _ _ _ => .panicked "not yet implemented"
    | .lam parameters value _loc =>
      infer_lam db fuel ctx (new_curried_function parameters value)
    | .piE parameters value _loc => do
      let codomain ← thir_check db fuel ctx value.expr Value.u
      let codomain2 ← inferPiFold (fun x => thir_check db fuel ctx x Value.u)
        parameters codomain
      pure (codomain2, Value.u)
    | .hole _ =>
      let meta := MetaVar.new none
      pure (Term.insertedMeta meta, Value.flexible meta [])

end

/-! HIR lowering (`sol-hir-lowering/src/term.rs`).

The syntax-tree node types consumed by the lowered functions.  A node's
byte range is abstracted to a number `range`, lowered to `Location.span
range` (`self.range(tree.range())`).  Pattern and statement-block syntax
is not among the provided sources, so a syntax pattern/block carries the
HIR value its (unmodelled) lowering produces.  Of the expression union
`AnnExpr_AppExpr_BinaryExpr_LamExpr_MatchExpr_PiExpr_Primary_SigmaExpr`,
only the members reached by the claims (`Primary`, `AppExpr`,
`MatchExpr`) are modelled. -/

/-- A syntax pattern node, represented by the HIR pattern its lowering
(`this.pattern`, source not provided) produces. -/
structure SynPattern where
  range : Nat
  lowered : HPattern

/-- A syntax block node, represented by the HIR block its lowering
(`this.block`, source not provided) produces. -/
structure SynBlock where
  range : Nat
  lowered : Block

mutual

/-- The claim-relevant members of the syntax expression union dispatched
by `HirLowering::expr`. -/
inductive SynExpr where
  | primaryE (p : SynPrimary)
  | appE (a : SynAppExpr)
  | matchN (m : SynMatchExpr)

/-- Models `sol_syntax::Primary` — a primary node: its range and its child
union (`ArrayExpr_FreeVariable_IfExpr_Literal_MatchExpr_Path_ReturnExpr_TupleExpr_UniverseExpr`). -/
inductive SynPrimary where
  | mk (range : Nat) (child : SynPrimaryChild)

/-- The child union of a `Primary` node.  `pathN`/`freeVariable` carry the
identifier node's own range and text (`^`-prefixed for a free
variable). -/
inductive SynPrimaryChild where
  | arrayE (a : SynArrayExpr)
  | ifE (i : SynIfExpr)
  | literalN (l : Literal)
  | matchN (m : SynMatchExpr)
  | pathN (range : Nat) (segments : List String)
  | returnE (r : SynReturnExpr)
  | tupleE (t : SynTupleExpr)
  | freeVariable (range : Nat) (text : String)
  | universeE

/-- Models `sol_syntax::ArrayExpr` — range and item expressions. -/
inductive SynArrayExpr where
  | mk (range : Nat) (items : List SynExpr)

/-- Models `sol_syntax::TupleExpr` — range and child expressions. -/
inductive SynTupleExpr where
  | mk (range : Nat) (children : List SynExpr)

/-- Models `sol_syntax::ReturnExpr` — range and optional value. -/
inductive SynReturnExpr where
  | mk (range : Nat) (value : Option SynExpr)

/-- Models `sol_syntax::IfExpr` — range, condition, then-body and else-body. -/
inductive SynIfExpr where
  | mk (range : Nat) (condition : SynExpr) (thenBranch : SynBranch)
       (elseBranch : SynBranch)

/-- A branch body that the grammar allows to be either a block or an
expression (the `Block(block) => Expr::block(…) | _ => this.expr(…)`
dispatch in `if_expr`/`matchExprLow`). -/
inductive SynBranch where
  | blockB (b : SynBlock)
  | exprB (e : SynExpr)

/-- Models `sol_syntax::MatchExpr` — range, scrutinee and arms. -/
inductive SynMatchExpr where
  | mk (range : Nat) (scrutinee : SynExpr) (arms : List SynArm)

/-- A match arm node — range, pattern and body. -/
inductive SynArm where
  | mk (range : Nat) (pattern : SynPattern) (body : SynBranch)

/-- Models `sol_syntax::AppExpr` — range, callee primary and the ordered child
list from which both `tree.arguments(…)` (the argument primaries) and the
trailing-block scan over `tree.children(…)` are drawn. -/
inductive SynAppExpr where
  | mk (range : Nat) (callee : SynPrimary) (children : List SynAppChild)

/-- A child of an application node: an argument primary or a block. -/
inductive SynAppChild where
  | argument (p : SynPrimary)
  | blockC (b : SynBlock)

end

/-- The argument primary of an application child, if it is one
(`node.regular()` filtering in `tree.arguments(…)`). -/
def SynAppChild.argumentOf : SynAppChild → Option SynPrimary
  | .argument p => some p
  | _ => none

/-- The block of an application child, if it is one
(`node.block()` filtering in the do-notation scan). -/
def SynAppChild.blockOf : SynAppChild → Option SynBlock
  | .blockC b => some b
  | _ => none

/-- Models `sol_hir::errors::HirErrorKind` — structural lowering errors
(`ReturnOutsideDoNotation`, named `returnOutsideDoBlock` here, and the
resolver's `Unresolved`). -/
inductive HirErrorKind where
  | returnOutsideDoBlock
  | unresolvedE
  deriving DecidableEq, Repr

/-- Models `sol_hir::errors::HirError` — a structural error with its label
location. -/
structure HirError where
  label : Location
  kind : HirErrorKind
  deriving DecidableEq, Repr

/-- Models `ScopeKind` — the kind of a lexical frame (`Lambda`, `Pi`, `Sigma`,
`DoNotation` — named `doBlock` here). -/
inductive ScopeKind where
  | global
  | lambda
  | pi
  | sigma
  | doBlock
  deriving DecidableEq, Repr

/-- Modelled from the spec: the scope resolver's lexical frame (its source
is not provided) — a kind, the free variables inserted into it, the
references recorded by `using`, and a back-reference to the parent. -/
inductive Scope where
  | mk (kind : ScopeKind) (freeVariables : List HirPath) (uses : List Reference)
       (parent : Option Scope)

/-- Field accessor for `Scope.kind`. -/
def Scope.kind : Scope → ScopeKind
  | .mk k _ _ _ => k

/-- Field accessor for `Scope.freeVariables`. -/
def Scope.freeVariables : Scope → List HirPath
  | .mk _ f _ _ => f

/-- Field accessor for `Scope.uses`. -/
def Scope.uses : Scope → List Reference
  | .mk _ _ u _ => u

/-- Modelled from the spec: `Scope::using(db, definition, location)` —
records a use and returns a `Reference`. -/
def Scope.using (s : Scope) (definition : Definition) (location : Location) :
    Reference × Scope :=
  let r : Reference := ⟨definition, location⟩
  (r, match s with | .mk k f u p => .mk k f (u ++ [r]) p)

/-- Modelled from the spec: `Scope::insert_free_variable(db, path)` —
registers an as-yet-unbound symbol in the scope and returns its
`Reference` (the definition handle is an unresolved placeholder for the
path). -/
def Scope.insert_free_variable (s : Scope) (path : HirPath) :
    Reference × Scope :=
  let r : Reference := ⟨⟨0, .unresolved, path⟩, path.location⟩
  (r, match s with | .mk k f u p => .mk k (f ++ [path]) u p)

/-- Modelled from the spec: `Scope::is_do_notation_scope` — whether the
current frame is a do-notation frame. -/
def Scope.isDoBlockScope (s : Scope) : Bool :=
  s.kind = ScopeKind.doBlock

/-- The mutable lowering context of `HirLowering` threaded through the
term-lowering functions: the current scope chain and the diagnostics
reported so far (`report_error` appends to the sink). -/
structure LowerState where
  scope : Scope
  diags : List HirError

/-- The state-threading, fallible lowering computation (`&mut self` plus
the diagnostics sink); `Res.fuelOut` is the embedding's fuel-exhaustion
marker. -/
def LowerM (α : Type) : Type :=
  LowerState → Res α × LowerState

/-- Sequencing of lowering computations. -/
def LowerM.bind {α β : Type} (m : LowerM α) (f : α → LowerM β) : LowerM β :=
  fun s =>
    match m s with
    | (.ok a, s1) => f a s1
    | (.err e, s1) => (.err e, s1)
    | (.panicked msg, s1) => (.panicked msg, s1)
    | (.fuelOut, s1) => (.fuelOut, s1)

instance : Monad LowerM where
  pure a := fun s => (.ok a, s)
  bind := LowerM.bind

/-- Models `report_error(self.db, err)` — appends a diagnostic to the sink. -/
def report_error (e : HirError) : LowerM Unit :=
  fun s => (.ok (), { s with diags := s.diags ++ [e] })

/-- Reads the current scope. -/
def getScope : LowerM Scope :=
  fun s => (.ok s.scope, s)

/-- Replaces the current scope. -/
def setScope (sc : Scope) : LowerM Unit :=
  fun s => (.ok (), { s with scope := sc })

/-- Models `self.scope.using(…)` as a state action. -/
def usingM (definition : Definition) (location : Location) : LowerM Reference :=
  fun s =>
    let (r, sc) := s.scope.using definition location
    (.ok r, { s with scope := sc })

/-- Models `self.scope.insert_free_variable(…)` as a state action. -/
def insertFreeVariableM (path : HirPath) : LowerM Reference :=
  fun s =>
    let (r, sc) := s.scope.insert_free_variable path
    (.ok r, { s with scope := sc })

/-- Modelled from the spec: the lowering-side database capability —
`qualify(path, kind)` resolves a path to a `Definition` by walking the
scope chain and falling back to the global queries, producing an
unresolved placeholder when nothing is found.  No claim depends on the
resolution outcome, so it is an abstract function of the database. -/
structure LowerDb where
  qualify : HirPath → DefinitionKind → Definition

/-- Modelled from the spec: `Expr::block(db, block)` — wraps a lowered
do-notation block as an expression.  Represented by a dedicated wrapper
whose location is `CallSite` (the constructor's source is not
provided). -/
def HExpr.ofBlock (b : Block) : HExpr :=
  HExpr.call .prefixC .pure [] (some b) .callSite

/-- Modelled from the spec: `Expr::call_unit_expr(location)` — the "pure
unit" default value for a value-less `return`. -/
def HExpr.call_unit_expr (location : Location) : HExpr :=
  HExpr.call .prefixC .unit [] none location

/-- Models `this.block(node, level)` — statement lowering is not among the
provided sources; the node carries the block it lowers to. -/
def blockLower (b : SynBlock) : LowerM Block :=
  pure b.lowered

/-- Models `this.pattern(node)` — pattern lowering is not among the provided
sources; the node carries the pattern it lowers to. -/
def patternLower (p : SynPattern) : LowerM HPattern :=
  pure p.lowered

/-- Lowers a list of block children in order (`…filter_map(block)
.map(|node| self.block(node, level))` — the iterator's `last()` consumes
and lowers every block). -/
def lowerBlockList : List SynBlock → LowerM (List Block)
  | [] => pure []
  | b :: bs => do
    let x ← blockLower b
    let xs ← lowerBlockList bs
    pure (x :: xs)

mutual

/-- Models `HirLowering::expr` — dispatches a syntax expression to the matching
lowering function (only the union members reached by the claims are
modelled; `Primary`, `AppExpr` and `MatchExpr` keep their source
dispatch). -/
def lowerExpr (db : LowerDb) : Nat → SynExpr → HirLevel → LowerM HExpr
  | 0, _, _ => fun s => (.fuelOut, s)
  | fuel + 1, t, level =>
    match t with
    | .primaryE p => primary db fuel p level
    | .appE a => app_expr db fuel a level
    | .matchN m => matchExprLow db fuel m level

/-- Models `HirLowering::primary` — lowers a primary node by its child union:
arrays, ifs, literals, matches, returns, tuples, resolved paths
(qualifying by `HirLevel`), free variables (sigil stripped, registered
through `insert_free_variable` — note: no diagnostic at either level) and
the universe keyword. -/
def primary (db : LowerDb) : Nat → SynPrimary → HirLevel → LowerM HExpr
  | 0, _, _ => fun s => (.fuelOut, s)
  | fuel + 1, .mk range child, level =>
    let location := Location.span range
    match child with
    | .arrayE a => array_expr db fuel a level
    | .ifE i => if_expr db fuel i level
    | .literalN l => pure (HExpr.literal ⟨l, location⟩)
    | .matchN m => matchExprLow db fuel m level
    | .returnE r => return_expr db fuel r level
    | .tupleE t => tuple_expr db fuel t level
    | .pathN prange segments =>
      let plocation := Location.span prange
      let path : HirPath := ⟨plocation, segments⟩
      let d :=
        match level with
        | .expr => db.qualify path .function
        | .type => db.qualify path .type
      do
        let reference ← usingM d plocation
        pure (HExpr.path reference)
    | .freeVariable frange text =>
      let flocation := Location.span frange
      let identifier := text.drop 1
      let path : HirPath := ⟨flocation, [identifier]⟩
      do
        let reference ← insertFreeVariableM path
        pure (HExpr.path reference)
    | .universeE => pure (HExpr.typeE .universe location)

/-- Models `HirLowering::if_expr` — lowers `if c then t else e` to a two-arm
`Match` of kind `If`: scrutinee is the lowered condition; the arms are
`[Literal(TRUE) -> then, Literal(FALSE) -> otherwise]` in that order, each
arm located at its lowered body. -/
def if_expr (db : LowerDb) : Nat → SynIfExpr → HirLevel → LowerM HExpr
  | 0, _, _ => fun s => (.fuelOut, s)
  | fuel + 1, .mk range condition thenBranch elseBranch, level => do
    let scrutinee ← lowerExpr db fuel condition level
    let thenV ← lowerBranch db fuel thenBranch level
    let otherwise ← lowerBranch db fuel elseBranch level
    let clauses : List MatchArm :=
      [ .mk (.literalP (Spanned.onCallSite Literal.TRUE)) thenV thenV.location
      , .mk (.literalP (Spanned.onCallSite Literal.FALSE)) otherwise
          otherwise.location ]
    let location := Location.span range
    pure (HExpr.matchE .ifKw scrutinee clauses location)

/-- The `Block(block) => Expr::block(…) | _ => this.expr(…)` body dispatch
shared by `if_expr`'s branches and `match_expr`'s arm bodies. -/
def lowerBranch (db : LowerDb) : Nat → SynBranch → HirLevel → LowerM HExpr
  | 0, _, _ => fun s => (.fuelOut, s)
  | fuel + 1, b, level =>
    match b with
    | .blockB blk => do
      let bl ← blockLower blk
      pure (HExpr.ofBlock bl)
    | .exprB e => lowerExpr db fuel e level

/-- Models `HirLowering::app_expr` — lowers an application: the callee and the
argument primaries in order, and the do-notation block taken as the *last*
block among the node's children (`…filter_map(block).map(…).last()`);
the resulting `Call` has kind `Infix` and an `Expr` callee. -/
def app_expr (db : LowerDb) : Nat → SynAppExpr → HirLevel → LowerM HExpr
  | 0, _, _ => fun s => (.fuelOut, s)
  | fuel + 1, .mk range callee children, level => do
    let calleeE ← primary db fuel callee level
    let arguments ← lowerPrimaryList db fuel
      (children.filterMap SynAppChild.argumentOf) level
    let blocks ← lowerBlockList (children.filterMap SynAppChild.blockOf)
    let location := Location.span range
    pure (HExpr.call .infixC (.exprC calleeE) arguments blocks.getLast?
      location)

/-- Models `HirLowering::array_expr` — lowers to a `Call` with the `Array`
callee. -/
def array_expr (db : LowerDb) : Nat → SynArrayExpr → HirLevel → LowerM HExpr
  | 0, _, _ => fun s => (.fuelOut, s)
  | fuel + 1, .mk range items, level => do
    let location := Location.span range
    let itemsE ← lowerExprList db fuel items level
    pure (HExpr.call .prefixC .array itemsE none location)

/-- Models `HirLowering::tuple_expr` — lowers to a `Call` with the `Tuple`
callee. -/
def tuple_expr (db : LowerDb) : Nat → SynTupleExpr → HirLevel → LowerM HExpr
  | 0, _, _ => fun s => (.fuelOut, s)
  | fuel + 1, .mk range children, level => do
    let location := Location.span range
    let argumentsE ← lowerExprList db fuel children level
    pure (HExpr.call .prefixC .tuple argumentsE none location)

/-- Models `HirLowering::return_expr` — reports `ReturnOutsideDoNotation` when the
current scope is not a do-notation scope, then lowers to a `Pure` call of
the value (or of the unit default). -/
def return_expr (db : LowerDb) : Nat → SynReturnExpr → HirLevel → LowerM HExpr
  | 0, _, _ => fun s => (.fuelOut, s)
  | fuel + 1, .mk range value, level => do
    let location := Location.span range
    let sc ← getScope
    if !sc.isDoBlockScope then
      report_error ⟨location, .returnOutsideDoBlock⟩
    else
      pure ()
    let v ←
      match value with
      | some node => lowerExpr db fuel node level
      | none => pure (HExpr.call_unit_expr location)
    pure (HExpr.call .prefixC .pure [v] none location)

/-- Models `HirLowering::match_expr` (`match_expr` is reserved syntax in Lean) — lowers a surface match to a `Match` of
kind `Match` with its arms in order. -/
def matchExprLow (db : LowerDb) : Nat → SynMatchExpr → HirLevel → LowerM HExpr
  | 0, _, _ => fun s => (.fuelOut, s)
  | fuel + 1, .mk range scrutineeN arms, level => do
    let scrutinee ← lowerExpr db fuel scrutineeN level
    let location := Location.span range
    let clauses ← lowerArmList db fuel arms level
    pure (HExpr.matchE .matchKw scrutinee clauses location)

/-- Lowers a list of argument primaries in order. -/
def lowerPrimaryList (db : LowerDb) :
    Nat → List SynPrimary → HirLevel → LowerM (List HExpr)
  | 0, _, _ => fun s => (.fuelOut, s)
  | _ + 1, [], _ => pure []
  | fuel + 1, p :: ps, level => do
    let x ← primary db fuel p level
    let xs ← lowerPrimaryList db fuel ps level
    pure (x :: xs)

/-- Lowers a list of expressions in order. -/
def lowerExprList (db : LowerDb) :
    Nat → List SynExpr → HirLevel → LowerM (List HExpr)
  | 0, _, _ => fun s => (.fuelOut, s)
  | _ + 1, [], _ => pure []
  | fuel + 1, e :: es, level => do
    let x ← lowerExpr db fuel e level
    let xs ← lowerExprList db fuel es level
    pure (x :: xs)

/-- Lowers a list of match arms in order (pattern, body, arm location). -/
def lowerArmList (db : LowerDb) :
    Nat → List SynArm → HirLevel → LowerM (List MatchArm)
  | 0, _, _ => fun s => (.fuelOut, s)
  | _ + 1, [], _ => pure []
  | fuel + 1, .mk arange pat body :: rest, level => do
    let p ← patternLower pat
    let b ← lowerBranch db fuel body level
    let xs ← lowerArmList db fuel rest level
    pure (MatchArm.mk p b (Location.span arange) :: xs)

end

/-! Primitive registry (`sol-hir/src/primitives.rs`). -/

/-- First-match association-list lookup, modelling `DashMap` reads (the
registry maps each key to at most one entry). -/
def lookupAssoc {κ ν : Type} [DecidableEq κ] : List (κ × ν) → κ → Option ν
  | [], _ => none
  | (k, v) :: rest, key => if k = key then some v else lookupAssoc rest key

/-- Models `sol_hir::primitives::PrimitiveBag` — the process-wide primitive table:
`type_representations` maps a type name to its canonical `Definition`,
`type_definitions` maps a `Definition` to its `TypeRep`.  `nextId` models
the salsa id supply consumed by `DefinitionId::new`/`Definition::new`. -/
structure PrimitiveBag where
  type_representations : List (String × Definition)
  type_definitions : List (Definition × TypeRep)
  nextId : Nat

/-- Models `new_type_rep(db, path, repr)` — inserts-or-finds the `Definition` for
`path`'s text (`entry(text).or_insert_with(…)`, creating a fresh
`Definition` of kind `Type` only when absent), then records `repr` only if
the definition has no recorded `TypeRep` yet
(`if !contains_key { insert }`); `path.to_string(db)` is unwrapped, a
panic when `None`. -/
def new_type_rep (bag : PrimitiveBag) (path : HirPath) (repr : TypeRep) :
    Res PrimitiveBag :=
  match path.toStr with
  | none => .panicked unwrapNoneMsg
  | some text =>
    let found := lookupAssoc bag.type_representations text
    let definition :=
      match found with
      | some d => d
      | none => ⟨bag.nextId, .type, path⟩
    let bag1 :=
      match found with
      | some _ => bag
      | none =>
        { bag with
          type_representations :=
            bag.type_representations ++ [(text, definition)]
          nextId := bag.nextId + 1 }
    if (lookupAssoc bag1.type_definitions definition).isSome then
      .ok bag1
    else
      .ok { bag1 with
        type_definitions := bag1.type_definitions ++ [(definition, repr)] }

/-- Models `primitive_type_rep(db, path)` — pure read of the `TypeRep` recorded
for a primitive name. -/
def primitive_type_rep (bag : PrimitiveBag) (path : HirPath) :
    Option TypeRep := do
  let text ← path.toStr
  let definition ← lookupAssoc bag.type_representations text
  lookupAssoc bag.type_definitions definition

/-- Models `primitive_type_definition(db, path)` — pure read of the canonical
`Definition` registered for a primitive name. -/
def primitive_type_definition (bag : PrimitiveBag) (path : HirPath) :
    Option Definition := do
  let text ← path.toStr
  lookupAssoc bag.type_representations text

/-- Models `HirPath::create(db, name)` — a single-segment path at the call
site. -/
def HirPath.create (name : String) : HirPath :=
  ⟨.callSite, [name]⟩

/-- The inner `new_type_rep` helper of `initialize_primitive_bag` — wraps
a type keyword as `TypeRep { expr: Expr::Type(refr, CallSite) }` under the
created path. -/
def newTypeRepNamed (bag : PrimitiveBag) (name : String) (refr : TypeKw) :
    Res PrimitiveBag :=
  new_type_rep bag (HirPath.create name) (.mk (.typeE refr .callSite))

/-- Models `initialize_primitive_bag(db)` — registers the fixed built-in set in
the source's order (`Int` is an alias registered with the `Int32`
keyword). -/
def initialize_primitive_bag (bag : PrimitiveBag) : Res PrimitiveBag := do
  let bag ← newTypeRepNamed bag "String" .string
  let bag ← newTypeRepNamed bag "Unit" .unit
  let bag ← newTypeRepNamed bag "Bool" .bool
  let bag ← newTypeRepNamed bag "Int" .int32
  let bag ← newTypeRepNamed bag "Int8" .int8
  let bag ← newTypeRepNamed bag "UInt8" .uint8
  let bag ← newTypeRepNamed bag "Int16" .int16
  let bag ← newTypeRepNamed bag "UInt16" .uint16
  let bag ← newTypeRepNamed bag "Int32" .int32
  let bag ← newTypeRepNamed bag "UInt32" .uint32
  let bag ← newTypeRepNamed bag "Int64" .int64
  let bag ← newTypeRepNamed bag "UInt64" .uint64
  newTypeRepNamed bag "Nat" .nat

/-! Shape predicates and concrete fixtures used by the theorems. -/

/-- Whether a HIR expression is a lambda (`Expr::Lam`), the shape tested by
`thir_check`'s first arm. -/
def HExpr.isLamB : HExpr → Bool
  | .lam _ _ _ => true
  | _ => false

/-- Whether a value is a `Pi`. -/
def Value.isPiB : Value → Bool
  | .pi _ => true
  | _ => false

/-- Whether a value is a `Pi` with the `Implicit` marker, the shape tested
by `thir_check`'s second arm. -/
def Value.isImplicitPiB : Value → Bool
  | .pi p => p.implicitness = .implicitM
  | _ => false

/-- Whether a HIR expression is one of the four structurally unsupported
shapes of `thir_infer` (`Empty | Error(_) | Match(_) | Sigma(_)`). -/
def HExpr.isUnsupportedB : HExpr → Bool
  | .empty => true
  | .error _ => true
  | .matchE _ _ _ _ => true
  | .sigma _ _ _ => true
  | _ => false

/-- A concrete external database for witnesses: references fail to
resolve, constructors infer the universe. -/
def exampleDb : ExternalDb :=
  { find_reference_type := fun _ _ => .err (.external 0 .callSite)
    infer_constructor := fun _ _ => .ok Value.u }

/-- The empty elaboration context. -/
def exampleCtx : Context := ⟨0, [], []⟩

/-- A concrete definition handle. -/
def exampleDef : Definition := ⟨0, .function, ⟨.callSite, ["x"]⟩⟩

/-- A second concrete definition handle. -/
def exampleDef2 : Definition := ⟨1, .function, ⟨.callSite, ["y"]⟩⟩

/-- A named implicit Pi value with universe domain and constant-universe
codomain. -/
def examplePiNamed : VPi :=
  .mk (some exampleDef) .implicitM Value.u (.mk [] Term.u)

/-- An unnamed implicit Pi value. -/
def examplePiUnnamed : VPi :=
  .mk none .implicitM Value.u (.mk [] Term.u)

/-- A one-parameter lambda with a hole body. -/
def exampleLam : HExpr :=
  .lam [.binding exampleDef .callSite] (.hole (.span 1)) (.span 2)

/-- A two-parameter lambda with a hole body. -/
def exampleLam2 : HExpr :=
  .lam [.binding exampleDef .callSite, .binding exampleDef2 .callSite]
    (.hole (.span 1)) (.span 2)

/-- A Pi-expression parameter with a hole type, explicit, binding the
definition numbered `n`. -/
def exampleParam (n : Nat) : HParameter :=
  .mk (.binding ⟨n, .function, ⟨.callSite, ["p"]⟩⟩ .callSite)
    (.mk (.hole (.span n))) false false .type .callSite

/-- The definition bound by `exampleParam n`. -/
def exampleParamDef (n : Nat) : Definition :=
  ⟨n, .function, ⟨.callSite, ["p"]⟩⟩

/-- A concrete lowering database: every path resolves to a fixed
placeholder definition. -/
def exampleLowerDb : LowerDb :=
  { qualify := fun path kind => ⟨99, kind, path⟩ }

/-- A concrete lowering state: a global scope, no diagnostics. -/
def exampleLowerState : LowerState :=
  ⟨.mk .global [] [] none, []⟩

/-! Helper lemmas shared by the claim theorems. -/

/-- Unfolding of the `Res` monad's bind. -/
theorem Res.resBindUnfold {α β : Type} (m : Res α) (f : α → Res β) :
    m >>= f = Res.bind m f := rfl

/-- Unfolding of the `Res` monad's pure. -/
theorem Res.resPureUnfold {α : Type} (a : α) : (pure a : Res α) = .ok a := rfl

/-- Unfolding of the `LowerM` monad's bind. -/
theorem LowerM.lowerBindUnfold {α β : Type} (m : LowerM α) (f : α → LowerM β) :
    m >>= f = LowerM.bind m f := rfl

/-- Unfolding of the `LowerM` monad's pure. -/
theorem LowerM.lowerPureUnfold {α : Type} (a : α) :
    (pure a : LowerM α) = fun s => (.ok a, s) := rfl

/-- Checking a non-lambda expression against an implicit Pi dispatches to
`implicit_fun_eta`: the source's second match arm fires whenever the
expression is not a `Lam` and the expected type is a `Pi` carrying the
`Implicit` marker (in particular it fires for `Hole` before the hole
arm). -/
theorem thir_check_implicit_pi_eq (db : ExternalDb) (fuel : Nat)
    (ctx : Context) (v : HExpr) (n : Option Definition) (d : Value)
    (c : Closure) (hv : v.isLamB = false) :
    thir_check db (fuel + 1) ctx v (.pi (.mk n .implicitM d c))
      = implicit_fun_eta db fuel ctx v (.mk n .implicitM d c) := by
  cases v <;> simp [HExpr.isLamB] at hv ⊢ <;> rfl

/-- The parameter loop of `thir_infer`'s Pi case, run to completion: when
every parameter's declared type checks, the loop returns the left fold
that wraps the accumulated codomain once per parameter, in iteration
order. -/
theorem inferPiFold_ok (chk : HExpr → Res Term)
    (params : List HParameter) (doms : List Term)
    (h : List.Forall₂ (fun p d => chk (p.parameter_type).expr = .ok d)
      params doms) :
    ∀ cod : Term,
    inferPiFold chk params cod
      = .ok ((params.zip doms).foldl
          (fun c pd => Term.pi (paramName pd.1) (paramIcit pd.1) pd.2 c)
          cod) := by
  induction h with
  | nil => intro cod; rfl
  | @cons p d ps ds hpd hps ih =>
    intro cod
    simp only [inferPiFold, Res.resBindUnfold, hpd, Res.bind, List.zip_cons_cons,
      List.foldl_cons]
    exact ih _

/-- Running `lowerBlockList` returns every carried block, in order, and
leaves the state unchanged. -/
theorem lowerBlockList_ok (bs : List SynBlock) (s : LowerState) :
    lowerBlockList bs s = (.ok (bs.map SynBlock.lowered), s) := by
  induction bs with
  | nil => rfl
  | cons b rest ih =>
    simp only [lowerBlockList, LowerM.lowerBindUnfold, LowerM.bind, blockLower,
      LowerM.lowerPureUnfold, List.map_cons]
    simp only [ih]

/-- An association-list lookup skips a prefix in which the key is
absent. -/
theorem lookupAssoc_append_left_none {κ ν : Type} [DecidableEq κ]
    (l1 l2 : List (κ × ν)) (k : κ)
    (h : lookupAssoc l1 k = none) :
    lookupAssoc (l1 ++ l2) k = lookupAssoc l2 k := by
  induction l1 with
  | nil => rfl
  | cons hd tl ih =>
    obtain ⟨a, v⟩ := hd
    by_cases hak : a = k
    · simp [lookupAssoc, hak] at h
    · simp only [lookupAssoc, List.cons_append, if_neg hak] at h ⊢
      exact ih h

/-- Appending a fresh binding makes it the lookup result when the key was
absent before. -/
theorem lookupAssoc_append_self {κ ν : Type} [DecidableEq κ]
    (l : List (κ × ν)) (k : κ) (v : ν)
    (h : lookupAssoc l k = none) :
    lookupAssoc (l ++ [(k, v)]) k = some v := by
  rw [lookupAssoc_append_left_none _ _ _ h]
  simp [lookupAssoc]

/-! The claim theorems. -/

/-- C1: for every context, every non-lambda expression `v` and every
expected type that is an implicit Pi, whenever `thir_check` returns a term
at all it returns `Lam(name, Implicit, body)` — never a bare `v` — where
`name` is the Pi's binder name and `body` is the result of checking `v`
against the Pi's codomain (applied to a fresh variable at the outer level)
under a binder for the Pi's domain inserted with `insert_new_binder`. -/
theorem thir_check_implicit_pi_eta_expands (db : ExternalDb) (fuel : Nat)
    (ctx : Context) (v : HExpr) (pi : VPi) (t : Term)
    (hv : v.isLamB = false)
    (hi : pi.implicitness = .implicitM)
    (hok : thir_check db (fuel + 2) ctx v (.pi pi) = .ok t) :
    ∃ n term_type body, pi.name = some n
      ∧ Closure.apply fuel pi.codomain (Value.new_var ctx.lvl none)
          = .ok term_type
      ∧ thir_check db fuel (ctx.insert_new_binder n pi.domain) v term_type
          = .ok body
      ∧ t = Term.lam n Implicitness.implicitM body := by
  obtain ⟨n, i, d, c⟩ := pi
  simp only [VPi.implicitness] at hi
  subst hi
  rw [show fuel + 2 = (fuel + 1) + 1 from rfl,
    thir_check_implicit_pi_eq db (fuel + 1) ctx v n d c hv] at hok
  cases n with
  | none => simp [implicit_fun_eta, VPi.name] at hok
  | some nm =>
    simp only [implicit_fun_eta, VPi.name, VPi.domain, VPi.codomain,
      Res.resBindUnfold, Res.resPureUnfold] at hok
    cases happ : Closure.apply fuel c (Value.new_var ctx.lvl none) with
    | ok tt =>
      rw [happ] at hok
      simp only [Res.bind] at hok
      cases hchk : thir_check db fuel (ctx.insert_new_binder nm d) v tt with
      | ok body =>
        rw [hchk] at hok
        simp only [Res.bind] at hok
        cases hok
        exact ⟨nm, tt, body, rfl, by simpa [VPi.codomain, VPi.domain],
          by simpa, rfl⟩
      | err e => rw [hchk] at hok; simp only [Res.bind] at hok; cases hok
      | panicked m => rw [hchk] at hok; simp only [Res.bind] at hok; cases hok
      | fuelOut => rw [hchk] at hok; simp only [Res.bind] at hok; cases hok
    | err e => rw [happ] at hok; simp only [Res.bind] at hok; cases hok
    | panicked m => rw [happ] at hok; simp only [Res.bind] at hok; cases hok
    | fuelOut => rw [happ] at hok; simp only [Res.bind] at hok; cases hok

/-- Witness for C1: checking the integer literal `1` against the named
implicit Pi `{x : U} -> U` produces the implicit lambda whose body is the
recursively checked literal. -/
theorem thir_check_implicit_pi_eta_expands_witness :
    (HExpr.literal (Spanned.onCallSite (Literal.int 1))).isLamB = false
    ∧ examplePiNamed.implicitness = .implicitM
    ∧ thir_check exampleDb 5 exampleCtx
        (.literal (Spanned.onCallSite (Literal.int 1))) (.pi examplePiNamed)
        = .ok (Term.lam exampleDef .implicitM
            (.constructor ⟨.callSite, .lit (Literal.int 1)⟩))
    ∧ ∃ n term_type body, examplePiNamed.name = some n
        ∧ Closure.apply 3 examplePiNamed.codomain
            (Value.new_var exampleCtx.lvl none) = .ok term_type
        ∧ thir_check exampleDb 3
            (exampleCtx.insert_new_binder n examplePiNamed.domain)
            (.literal (Spanned.onCallSite (Literal.int 1))) term_type
            = .ok body
        ∧ Term.lam exampleDef .implicitM
            (.constructor ⟨.callSite, .lit (Literal.int 1)⟩)
            = Term.lam n Implicitness.implicitM body :=
  ⟨rfl, rfl, rfl,
    thir_check_implicit_pi_eta_expands exampleDb 3 exampleCtx
      (.literal (Spanned.onCallSite (Literal.int 1))) examplePiNamed
      (Term.lam exampleDef .implicitM
        (.constructor ⟨.callSite, .lit (Literal.int 1)⟩)) rfl rfl rfl⟩

/-- C2, counterexample: inferring the Pi expression with parameter list
`[p1, p2]` produces `Pi(p2, Pi(p1, body))` — the *second* parameter
outermost — which differs from the claimed nesting `Pi(p1, Pi(p2, body))`
with `p1` outermost. -/
theorem thir_infer_pi_fold_order_counterexample :
    thir_infer exampleDb 8 exampleCtx
        (.piE [exampleParam 1, exampleParam 2] (.mk (.hole (.span 0)))
          (.span 9))
      = .ok (Term.pi (some (exampleParamDef 2)) .explicitM
          (.insertedMeta (MetaVar.new none))
          (Term.pi (some (exampleParamDef 1)) .explicitM
            (.insertedMeta (MetaVar.new none))
            (.insertedMeta (MetaVar.new none))), Value.u)
    ∧ Term.pi (some (exampleParamDef 2)) .explicitM
          (.insertedMeta (MetaVar.new none))
          (Term.pi (some (exampleParamDef 1)) .explicitM
            (.insertedMeta (MetaVar.new none))
            (.insertedMeta (MetaVar.new none)))
        ≠ Term.pi (some (exampleParamDef 1)) .explicitM
          (.insertedMeta (MetaVar.new none))
          (Term.pi (some (exampleParamDef 2)) .explicitM
            (.insertedMeta (MetaVar.new none))
            (.insertedMeta (MetaVar.new none))) :=
  ⟨rfl, by decide⟩

/-- C2, amended: `thir_infer` on a Pi expression checks the body against
the universe, checks each parameter's declared type against the universe,
and iterates the parameter list *left to right*, wrapping the accumulated
codomain once per parameter — so `p1` ends up as the *innermost* Pi and
`pn` as the *outermost* — each Pi carrying that parameter's
explicit/implicit marking and binder name if any; the inferred type of the
whole expression is the universe `U`. -/
theorem thir_infer_pi_folds_left_to_right (db : ExternalDb) (fuel : Nat)
    (ctx : Context) (params : List HParameter) (value : TypeRep)
    (loc : Location) (doms : List Term) (cod0 : Term)
    (hbody : thir_check db fuel ctx value.expr Value.u = .ok cod0)
    (hdoms : List.Forall₂
      (fun p d =>
        thir_check db fuel ctx (p.parameter_type).expr Value.u = .ok d)
      params doms) :
    thir_infer db (fuel + 1) ctx (.piE params value loc)
      = .ok ((params.zip doms).foldl
          (fun c pd => Term.pi (paramName pd.1) (paramIcit pd.1) pd.2 c)
          cod0, Value.u) := by
  simp only [thir_infer, Res.resBindUnfold, hbody, Res.bind]
  rw [inferPiFold_ok _ params doms hdoms cod0]
  rfl

/-- Witness for C2 (amended): a single-parameter Pi with a hole body. -/
theorem thir_infer_pi_folds_left_to_right_witness :
    thir_check exampleDb 1 exampleCtx (TypeRep.mk (.hole (.span 0))).expr
        Value.u = .ok (.insertedMeta (MetaVar.new none))
    ∧ List.Forall₂
        (fun p d =>
          thir_check exampleDb 1 exampleCtx (HParameter.parameter_type
            p).expr Value.u = .ok d)
        [exampleParam 1] [.insertedMeta (MetaVar.new none)]
    ∧ thir_infer exampleDb 2 exampleCtx
        (.piE [exampleParam 1] (.mk (.hole (.span 0))) (.span 9))
        = .ok (Term.pi (some (exampleParamDef 1)) .explicitM
            (.insertedMeta (MetaVar.new none))
            (.insertedMeta (MetaVar.new none)), Value.u) :=
  ⟨rfl, List.Forall₂.cons rfl List.Forall₂.nil,
    thir_infer_pi_folds_left_to_right exampleDb 1 exampleCtx
      [exampleParam 1] (.mk (.hole (.span 0))) (.span 9)
      [.insertedMeta (MetaVar.new none)] (.insertedMeta (MetaVar.new none))
      rfl (List.Forall₂.cons rfl List.Forall₂.nil)⟩

/-- C3, counterexample: checking a `Hole` against a *named implicit Pi*
does not return a bare `InsertedMeta` — the eta-expansion arm fires first
and wraps the metavariable in an implicit lambda. -/
theorem thir_check_hole_implicit_pi_counterexample :
    thir_check exampleDb 3 exampleCtx (.hole (.span 0)) (.pi examplePiNamed)
        = .ok (Term.lam exampleDef .implicitM
            (.insertedMeta (MetaVar.new none)))
    ∧ thir_check exampleDb 3 exampleCtx (.hole (.span 0))
          (.pi examplePiNamed)
        ≠ .ok (Term.insertedMeta (MetaVar.new none)) :=
  ⟨rfl, by decide⟩

/-- C3, amended: for every context and every expected type that is *not an
implicit Pi*, `thir_check` applied to a `Hole` returns a fresh unresolved
metavariable term `InsertedMeta` without inspecting the expected type;
against an implicit Pi the eta-expansion arm fires first instead. -/
theorem thir_check_hole_meta (db : ExternalDb) (fuel : Nat) (ctx : Context)
    (loc : Location) (T : Value)
    (h : T.isImplicitPiB = false) :
    thir_check db (fuel + 1) ctx (.hole loc) T
      = .ok (.insertedMeta (MetaVar.new none)) := by
  cases T
  case pi p =>
    obtain ⟨n, i, d, c⟩ := p
    cases i
    case implicitM => simp [Value.isImplicitPiB, VPi.implicitness] at h
    case explicitM => rfl
  all_goals rfl

/-- Witness for C3 (amended): a hole checked against the universe. -/
theorem thir_check_hole_meta_witness :
    Value.u.isImplicitPiB = false
    ∧ thir_check exampleDb 1 exampleCtx (.hole .callSite) Value.u
        = .ok (.insertedMeta (MetaVar.new none)) :=
  ⟨rfl, thir_check_hole_meta exampleDb 0 exampleCtx .callSite Value.u rfl⟩

/-- C4, counterexample: checking a lambda against the non-Pi type `U` does
not fail with an "expected a function type" error — at top level it
returns `Ok` through the infer-then-unify path, and the dedicated
lambda-vs-non-Pi branch inside curried checking is `todo!("handle:
error")`, a panic rather than a recoverable failure value. -/
theorem lam_non_pi_counterexample :
    thir_check exampleDb 8 exampleCtx exampleLam Value.u
        = .ok (Term.lam exampleDef .explicitM
            (.insertedMeta (MetaVar.new none)))
    ∧ lam_thir_check exampleDb 1 exampleCtx
          (.lamC exampleDef (.exprC (.hole .callSite))) Value.u .explicitM
        = .panicked "handle: error" :=
  ⟨rfl, rfl⟩

/-- C4, amended: checking a lambda against a non-Pi expected type never
produces a typed "expected a function type" failure: the top-level
`thir_check` dispatch sends it to the infer-then-unify path
(`term_equality`), and the dedicated lambda-vs-non-Pi branch reached
through curried checking (`expected_lam_pi`) is unimplemented and aborts
the process with `todo!("handle: error")`. -/
theorem lam_non_pi_no_typed_error (db : ExternalDb) (fuel : Nat)
    (ctx : Context) (ps : List HPattern) (v : HExpr) (loc : Location)
    (T : Value) (d : Definition) (rest : Curried) (icit : Implicitness)
    (h : T.isPiB = false) :
    thir_check db (fuel + 1) ctx (.lam ps v loc) T
        = term_equality db fuel ctx (.lam ps v loc) T
      ∧ lam_thir_check db (fuel + 1) ctx (.lamC d rest) T icit
        = .panicked "handle: error" := by
  cases T
  case pi p => simp [Value.isPiB] at h
  all_goals exact ⟨rfl, rfl⟩

/-- Witness for C4 (amended): the universe as the non-Pi expected type. -/
theorem lam_non_pi_no_typed_error_witness :
    Value.u.isPiB = false
    ∧ (thir_check exampleDb 1 exampleCtx (.lam [] (.hole .callSite)
          .callSite) Value.u
        = term_equality exampleDb 0 exampleCtx (.lam [] (.hole .callSite)
            .callSite) Value.u
      ∧ lam_thir_check exampleDb 1 exampleCtx
          (.lamC exampleDef (.exprC (.hole .callSite))) Value.u .explicitM
        = .panicked "handle: error") :=
  ⟨rfl, lam_non_pi_no_typed_error exampleDb 0 exampleCtx []
    (.hole .callSite) .callSite Value.u exampleDef
    (.exprC (.hole .callSite)) .explicitM rfl⟩

/-- C5: for every context, `thir_infer` applied to an `Empty`, `Error`,
`Match` or `Sigma` HIR expression fails with an `UnsupportedTerm` error
whose location is the offending expression's location. -/
theorem thir_infer_unsupported_term_error (db : ExternalDb) (fuel : Nat)
    (ctx : Context) (e : HExpr)
    (h : e.isUnsupportedB = true) :
    thir_infer db (fuel + 1) ctx e = .err (.unsupportedTerm e.location) := by
  cases e <;> simp [HExpr.isUnsupportedB] at h <;> rfl

/-- Witness for C5: an `Error` node at span 3. -/
theorem thir_infer_unsupported_term_error_witness :
    (HExpr.error (.span 3)).isUnsupportedB = true
    ∧ thir_infer exampleDb 1 exampleCtx (.error (.span 3))
        = .err (.unsupportedTerm (HExpr.error (.span 3)).location) :=
  ⟨rfl, thir_infer_unsupported_term_error exampleDb 0 exampleCtx
    (.error (.span 3)) rfl⟩

/-- C6: lowering `if c then t else e` produces a `Match` (of kind `If`) on
the lowered condition with exactly two arms in the fixed order
`[Literal(true) -> lowered t, Literal(false) -> lowered e]`, each arm
located at its lowered body. -/
theorem if_expr_two_arm_match (db : LowerDb) (fuel : Nat) (level : HirLevel)
    (range : Nat) (c : SynExpr) (tb eb : SynBranch)
    (s s1 s2 s3 : LowerState) (cL tL eL : HExpr)
    (hc : lowerExpr db fuel c level s = (.ok cL, s1))
    (ht : lowerBranch db fuel tb level s1 = (.ok tL, s2))
    (he : lowerBranch db fuel eb level s2 = (.ok eL, s3)) :
    if_expr db (fuel + 1) (.mk range c tb eb) level s
      = (.ok (HExpr.matchE .ifKw cL
          [ .mk (.literalP (Spanned.onCallSite Literal.TRUE)) tL tL.location
          , .mk (.literalP (Spanned.onCallSite Literal.FALSE)) eL
              eL.location ]
          (.span range)), s3) := by
  simp only [if_expr, LowerM.lowerBindUnfold, LowerM.bind, LowerM.lowerPureUnfold, hc, ht,
    he]

/-- Witness for C6: `if Universe then true else false` with expression
branches. -/
theorem if_expr_two_arm_match_witness :
    lowerExpr exampleLowerDb 3 (.primaryE (.mk 0 .universeE)) .expr
        exampleLowerState
      = (.ok (HExpr.typeE .universe (.span 0)), exampleLowerState)
    ∧ lowerBranch exampleLowerDb 3
        (.exprB (.primaryE (.mk 1 (.literalN Literal.TRUE)))) .expr
        exampleLowerState
      = (.ok (HExpr.literal ⟨Literal.TRUE, .span 1⟩), exampleLowerState)
    ∧ lowerBranch exampleLowerDb 3
        (.exprB (.primaryE (.mk 2 (.literalN Literal.FALSE)))) .expr
        exampleLowerState
      = (.ok (HExpr.literal ⟨Literal.FALSE, .span 2⟩), exampleLowerState)
    ∧ if_expr exampleLowerDb 4
        (.mk 9 (.primaryE (.mk 0 .universeE))
          (.exprB (.primaryE (.mk 1 (.literalN Literal.TRUE))))
          (.exprB (.primaryE (.mk 2 (.literalN Literal.FALSE))))) .expr
        exampleLowerState
      = (.ok (HExpr.matchE .ifKw (HExpr.typeE .universe (.span 0))
          [ .mk (.literalP (Spanned.onCallSite Literal.TRUE))
              (HExpr.literal ⟨Literal.TRUE, .span 1⟩) (.span 1)
          , .mk (.literalP (Spanned.onCallSite Literal.FALSE))
              (HExpr.literal ⟨Literal.FALSE, .span 2⟩) (.span 2) ]
          (.span 9)), exampleLowerState) :=
  ⟨rfl, rfl, rfl,
    if_expr_two_arm_match exampleLowerDb 3 .expr 9
      (.primaryE (.mk 0 .universeE))
      (.exprB (.primaryE (.mk 1 (.literalN Literal.TRUE))))
      (.exprB (.primaryE (.mk 2 (.literalN Literal.FALSE))))
      exampleLowerState exampleLowerState exampleLowerState
      exampleLowerState
      (HExpr.typeE .universe (.span 0))
      (HExpr.literal ⟨Literal.TRUE, .span 1⟩)
      (HExpr.literal ⟨Literal.FALSE, .span 2⟩) rfl rfl rfl⟩

/-- C7, counterexample: lowering the free-variable primary `^x` at the
*expression* level reports no diagnostic at all — the diagnostics sink is
unchanged — and simply registers the stripped name through
`insert_free_variable`, contradicting the claim that the caller reports a
usage error. -/
theorem free_variable_expr_level_counterexample :
    (primary exampleLowerDb 1 (.mk 5 (.freeVariable 6 "^x")) HirLevel.expr
        exampleLowerState).2.diags = []
    ∧ (primary exampleLowerDb 1 (.mk 5 (.freeVariable 6 "^x"))
        HirLevel.expr exampleLowerState).1
      = .ok (HExpr.path ⟨⟨0, .unresolved, ⟨.span 6, ["x"]⟩⟩, .span 6⟩) :=
  ⟨rfl, rfl⟩

/-- C7, amended: a free-variable occurrence lowers identically at both
levels — the `^` sigil is stripped and the path registered through
`insert_free_variable`, returning its reference — and no diagnostic is
reported by the caller at either level; the type-level-only restriction is
convention, not enforced. -/
theorem free_variable_no_diagnostic (db : LowerDb) (fuel : Nat)
    (prange frange : Nat) (text : String) (level : HirLevel)
    (s : LowerState) :
    primary db (fuel + 1) (.mk prange (.freeVariable frange text)) level s
      = (.ok (HExpr.path
          (s.scope.insert_free_variable ⟨.span frange, [text.drop 1]⟩).1),
        { s with scope :=
            (s.scope.insert_free_variable
              ⟨.span frange, [text.drop 1]⟩).2 })
    ∧ (primary db (fuel + 1) (.mk prange (.freeVariable frange text)) level
        s).2.diags = s.diags :=
  ⟨rfl, rfl⟩

/-- C8: registering the same primitive name twice is idempotent — the
second registration (with any, possibly different, representation) leaves
the bag entirely unchanged, both registrations yield the same single
`Definition`, `primitive_type_definition` returns that same handle after
either registration, and the first registration's representation is the
one kept. -/
theorem new_type_rep_idempotent (bag : PrimitiveBag) (path : HirPath)
    (repr1 repr2 : TypeRep) (text : String) (bag1 bag2 : PrimitiveBag)
    (htext : path.toStr = some text)
    (hnew : lookupAssoc bag.type_representations text = none)
    (hfresh : lookupAssoc bag.type_definitions ⟨bag.nextId, .type, path⟩
      = none)
    (h1 : new_type_rep bag path repr1 = .ok bag1)
    (h2 : new_type_rep bag1 path repr2 = .ok bag2) :
    bag2 = bag1
    ∧ primitive_type_definition bag1 path
        = some ⟨bag.nextId, .type, path⟩
    ∧ primitive_type_definition bag2 path
        = primitive_type_definition bag1 path
    ∧ lookupAssoc bag1.type_definitions ⟨bag.nextId, .type, path⟩
        = some repr1 := by
  have hb1 : bag1 =
      { type_representations :=
          bag.type_representations ++ [(text, ⟨bag.nextId, .type, path⟩)]
        type_definitions :=
          bag.type_definitions ++ [(⟨bag.nextId, .type, path⟩, repr1)]
        nextId := bag.nextId + 1 } := by
    simp only [new_type_rep, htext, hnew, hfresh, Option.isSome_none,
      Bool.false_eq_true, if_false] at h1
    exact (Res.ok.inj h1).symm
  have hreps : lookupAssoc bag1.type_representations text
      = some ⟨bag.nextId, .type, path⟩ := by
    rw [hb1]
    exact lookupAssoc_append_self _ _ _ hnew
  have hdefs : lookupAssoc bag1.type_definitions ⟨bag.nextId, .type, path⟩
      = some repr1 := by
    rw [hb1]
    exact lookupAssoc_append_self _ _ _ hfresh
  have hbag2 : bag2 = bag1 := by
    simp only [new_type_rep, htext, hreps, hdefs, Option.isSome_some,
      if_true] at h2
    exact (Res.ok.inj h2).symm
  refine ⟨hbag2, ?_, ?_, ?_⟩
  · simp [primitive_type_definition, htext, hreps, Option.bind]
  · rw [hbag2]
  · exact hdefs

/-- Witness for C8: registering `Bool` twice, the second time with the
`String` representation, starting from the empty bag. -/
theorem new_type_rep_idempotent_witness :
    (HirPath.create "Bool").toStr = some "Bool"
    ∧ lookupAssoc (PrimitiveBag.mk [] [] 0).type_representations "Bool"
        = none
    ∧ lookupAssoc (PrimitiveBag.mk [] [] 0).type_definitions
        ⟨0, .type, HirPath.create "Bool"⟩ = none
    ∧ new_type_rep (PrimitiveBag.mk [] [] 0) (HirPath.create "Bool")
        (.mk (.typeE .bool .callSite))
      = .ok (PrimitiveBag.mk
          [("Bool", ⟨0, .type, HirPath.create "Bool"⟩)]
          [(⟨0, .type, HirPath.create "Bool"⟩, .mk (.typeE .bool .callSite))]
          1)
    ∧ new_type_rep (PrimitiveBag.mk
          [("Bool", ⟨0, .type, HirPath.create "Bool"⟩)]
          [(⟨0, .type, HirPath.create "Bool"⟩, .mk (.typeE .bool .callSite))]
          1) (HirPath.create "Bool") (.mk (.typeE .string .callSite))
      = .ok (PrimitiveBag.mk
          [("Bool", ⟨0, .type, HirPath.create "Bool"⟩)]
          [(⟨0, .type, HirPath.create "Bool"⟩, .mk (.typeE .bool .callSite))]
          1)
    ∧ (PrimitiveBag.mk
          [("Bool", ⟨0, .type, HirPath.create "Bool"⟩)]
          [(⟨0, .type, HirPath.create "Bool"⟩, .mk (.typeE .bool .callSite))]
          1
        = PrimitiveBag.mk
          [("Bool", ⟨0, .type, HirPath.create "Bool"⟩)]
          [(⟨0, .type, HirPath.create "Bool"⟩, .mk (.typeE .bool .callSite))]
          1
      ∧ primitive_type_definition (PrimitiveBag.mk
          [("Bool", ⟨0, .type, HirPath.create "Bool"⟩)]
          [(⟨0, .type, HirPath.create "Bool"⟩, .mk (.typeE .bool .callSite))]
          1) (HirPath.create "Bool")
        = some ⟨0, .type, HirPath.create "Bool"⟩
      ∧ primitive_type_definition (PrimitiveBag.mk
          [("Bool", ⟨0, .type, HirPath.create "Bool"⟩)]
          [(⟨0, .type, HirPath.create "Bool"⟩, .mk (.typeE .bool .callSite))]
          1) (HirPath.create "Bool")
        = primitive_type_definition (PrimitiveBag.mk
          [("Bool", ⟨0, .type, HirPath.create "Bool"⟩)]
          [(⟨0, .type, HirPath.create "Bool"⟩, .mk (.typeE .bool .callSite))]
          1) (HirPath.create "Bool")
      ∧ lookupAssoc (PrimitiveBag.mk
          [("Bool", ⟨0, .type, HirPath.create "Bool"⟩)]
          [(⟨0, .type, HirPath.create "Bool"⟩, .mk (.typeE .bool .callSite))]
          1).type_definitions ⟨0, .type, HirPath.create "Bool"⟩
        = some (.mk (.typeE .bool .callSite))) :=
  ⟨rfl, rfl, rfl, rfl, rfl,
    new_type_rep_idempotent (PrimitiveBag.mk [] [] 0)
      (HirPath.create "Bool") (.mk (.typeE .bool .callSite))
      (.mk (.typeE .string .callSite)) "Bool"
      (PrimitiveBag.mk
        [("Bool", ⟨0, .type, HirPath.create "Bool"⟩)]
        [(⟨0, .type, HirPath.create "Bool"⟩, .mk (.typeE .bool .callSite))]
        1)
      (PrimitiveBag.mk
        [("Bool", ⟨0, .type, HirPath.create "Bool"⟩)]
        [(⟨0, .type, HirPath.create "Bool"⟩, .mk (.typeE .bool .callSite))]
        1) rfl rfl rfl rfl rfl⟩

/-- C9: lowering an application attaches, as the call's do-notation block,
exactly the *last* block among the node's children — at most one block is
honored, and with no block child the attached block is `none`; in
particular when the children are an arbitrary prefix followed by a block
and a block-free tail, that block is the one attached. -/
theorem app_expr_trailing_block (db : LowerDb) (fuel : Nat)
    (level : HirLevel) (range : Nat) (callee : SynPrimary)
    (children : List SynAppChild) (s s1 s2 : LowerState) (calleeL : HExpr)
    (args : List HExpr)
    (hcallee : primary db fuel callee level s = (.ok calleeL, s1))
    (hargs : lowerPrimaryList db fuel
      (children.filterMap SynAppChild.argumentOf) level s1
      = (.ok args, s2)) :
    app_expr db (fuel + 1) (.mk range callee children) level s
      = (.ok (HExpr.call .infixC (.exprC calleeL) args
          (((children.filterMap SynAppChild.blockOf).map
            SynBlock.lowered).getLast?)
          (.span range)), s2)
    ∧ (children.filterMap SynAppChild.blockOf = [] →
        ((children.filterMap SynAppChild.blockOf).map
          SynBlock.lowered).getLast? = none)
    ∧ (∀ pre b post, children = pre ++ .blockC b :: post →
        (∀ x ∈ post, SynAppChild.blockOf x = none) →
        ((children.filterMap SynAppChild.blockOf).map
          SynBlock.lowered).getLast? = some b.lowered) := by
  refine ⟨?_, ?_, ?_⟩
  · simp only [app_expr, LowerM.lowerBindUnfold, LowerM.bind, LowerM.lowerPureUnfold,
      hcallee, hargs, lowerBlockList_ok]
  · intro h
    rw [h]
    rfl
  · intro pre b post hch hpost
    subst hch
    have hnil : post.filterMap SynAppChild.blockOf = [] :=
      List.filterMap_eq_nil_iff.mpr hpost
    simp [List.filterMap_append, List.filterMap_cons, SynAppChild.blockOf,
      hnil, List.getLast?_concat]

/-- Witness for C9: an application `Universe 2 { block }` with one
argument and one trailing block. -/
theorem app_expr_trailing_block_witness :
    primary exampleLowerDb 2 (.mk 0 .universeE) .expr exampleLowerState
      = (.ok (HExpr.typeE .universe (.span 0)), exampleLowerState)
    ∧ lowerPrimaryList exampleLowerDb 2
        ([SynAppChild.argument (.mk 1 (.literalN (Literal.int 2))),
          SynAppChild.blockC ⟨7, ⟨42⟩⟩].filterMap SynAppChild.argumentOf)
        .expr exampleLowerState
      = (.ok [HExpr.literal ⟨Literal.int 2, .span 1⟩], exampleLowerState)
    ∧ app_expr exampleLowerDb 3
        (.mk 9 (.mk 0 .universeE)
          [SynAppChild.argument (.mk 1 (.literalN (Literal.int 2))),
            SynAppChild.blockC ⟨7, ⟨42⟩⟩]) .expr exampleLowerState
      = (.ok (HExpr.call .infixC
          (.exprC (HExpr.typeE .universe (.span 0)))
          [HExpr.literal ⟨Literal.int 2, .span 1⟩]
          (some ⟨42⟩) (.span 9)), exampleLowerState)
    ∧ (([SynAppChild.argument (.mk 1 (.literalN (Literal.int 2))),
          SynAppChild.blockC ⟨7, ⟨42⟩⟩].filterMap
          SynAppChild.blockOf).map SynBlock.lowered).getLast?
      = some (Block.mk 42) :=
  ⟨rfl, rfl,
    (app_expr_trailing_block exampleLowerDb 2 .expr 9 (.mk 0 .universeE)
      [SynAppChild.argument (.mk 1 (.literalN (Literal.int 2))),
        SynAppChild.blockC ⟨7, ⟨42⟩⟩]
      exampleLowerState exampleLowerState exampleLowerState
      (HExpr.typeE .universe (.span 0))
      [HExpr.literal ⟨Literal.int 2, .span 1⟩] rfl rfl).1,
    (app_expr_trailing_block exampleLowerDb 2 .expr 9 (.mk 0 .universeE)
      [SynAppChild.argument (.mk 1 (.literalN (Literal.int 2))),
        SynAppChild.blockC ⟨7, ⟨42⟩⟩]
      exampleLowerState exampleLowerState exampleLowerState
      (HExpr.typeE .universe (.span 0))
      [HExpr.literal ⟨Literal.int 2, .span 1⟩] rfl rfl).2.2
      [SynAppChild.argument (.mk 1 (.literalN (Literal.int 2)))]
      ⟨7, ⟨42⟩⟩ [] rfl (by simp)⟩

/-- C10: checking a non-lambda expression against an implicit Pi whose
binder name is `None` panics — `implicit_fun_eta` unwraps `pi.name` — so
the eta-expansion path aborts instead of returning a term or a typed
error. -/
theorem implicit_fun_eta_unnamed_pi_panics (db : ExternalDb) (fuel : Nat)
    (ctx : Context) (v : HExpr) (pi : VPi)
    (hv : v.isLamB = false)
    (hi : pi.implicitness = .implicitM)
    (hn : pi.name = none) :
    thir_check db (fuel + 2) ctx v (.pi pi) = .panicked unwrapNoneMsg := by
  obtain ⟨n, i, d, c⟩ := pi
  simp only [VPi.implicitness] at hi
  subst hi
  simp only [VPi.name] at hn
  subst hn
  rw [show fuel + 2 = (fuel + 1) + 1 from rfl,
    thir_check_implicit_pi_eq db (fuel + 1) ctx v none d c hv]
  simp [implicit_fun_eta, VPi.name]

/-- Witness for C10: a hole checked against the unnamed implicit Pi. -/
theorem implicit_fun_eta_unnamed_pi_panics_witness :
    (HExpr.hole Location.callSite).isLamB = false
    ∧ examplePiUnnamed.implicitness = .implicitM
    ∧ examplePiUnnamed.name = none
    ∧ thir_check exampleDb 2 exampleCtx (.hole .callSite)
        (.pi examplePiUnnamed) = .panicked unwrapNoneMsg :=
  ⟨rfl, rfl, rfl,
    implicit_fun_eta_unnamed_pi_panics exampleDb 0 exampleCtx
      (.hole .callSite) examplePiUnnamed rfl rfl rfl⟩

end Saph
